import Mathlib

/-!
Verification of the flare-survey pipeline (main.go): country filtering,
haversine nearest-neighbor joining, min-max normalization and the
linear-regression stage.  Floating-point values are modelled exactly:
rational arithmetic (`ℚ`) for the computational parts and real numbers
(`ℝ`) for the trigonometric distance computation.  Go runtime panics and
`log.Fatalf` aborts are modelled by `Option` results (`none` = the run
aborts without producing a value).
-/

namespace Flare

/-- One decimal digit of a character, `none` when the character is not
a digit.  Helper for the model of `strconv.ParseFloat`. -/
def digitVal (ch : Char) : Option ℕ :=
  if ch.isDigit then some (ch.toNat - 48) else none

/-- Split a leading run of decimal digits off a character list. -/
def takeDigits : List Char → (List ℕ × List Char)
  | [] => ([], [])
  | ch :: rest =>
    match digitVal ch with
    | some v =>
      let p := takeDigits rest
      (v :: p.1, p.2)
    | none => ([], ch :: rest)

/-- Value of a digit run read in base 10. -/
def digitsToNat (ds : List ℕ) : ℕ :=
  ds.foldl (fun acc v => 10 * acc + v) 0

/-- Consume an optional leading sign; `true` means negative. -/
def takeSign : List Char → (Bool × List Char)
  | '-' :: rest => (true, rest)
  | '+' :: rest => (false, rest)
  | l => (false, l)

/-- Model of `parseFloat` (main.go): `strconv.ParseFloat` on the trimmed
string, with any parse error mapped to `0.0`.  A decimal literal with an
optional sign, fraction and exponent part is parsed exactly into `ℚ`. -/
def parseFloat (s : String) : ℚ :=
  let cs := s.trim.toList
  let sg := takeSign cs
  let ip := takeDigits sg.2
  let fp : List ℕ × List Char :=
    match ip.2 with
    | '.' :: rest => takeDigits rest
    | _ => ([], ip.2)
  if ip.1.isEmpty ∧ fp.1.isEmpty then 0
  else
    let mant : ℚ := (digitsToNat ip.1 : ℚ) + (digitsToNat fp.1 : ℚ) / (10 ^ fp.1.length : ℚ)
    let ex : Option ℤ × List Char :=
      match fp.2 with
      | 'e' :: rest | 'E' :: rest =>
        let esg := takeSign rest
        let eds := takeDigits esg.2
        if eds.1.isEmpty then (none, eds.2)
        else (some (if esg.1 then -(digitsToNat eds.1 : ℤ) else (digitsToNat eds.1 : ℤ)), eds.2)
      | _ => (some 0, fp.2)
    match ex.1 with
    | none => 0
    | some e => if ex.2.isEmpty then (if sg.1 then -mant else mant) * (10 : ℚ) ^ e else 0

/-- Model of `strings.EqualFold` restricted to simple case folding:
the two strings agree character-for-character after lowercasing. -/
def eqFold (a b : String) : Bool :=
  a.toList.map Char.toLower == b.toList.map Char.toLower

/-- The row predicate of `filterAlgeria` (main.go line 62): the row has a
cell at `countryCol` and that cell case-insensitively equals "Algeria". -/
def isAlgeriaRow (row : List String) (countryCol : ℕ) : Bool :=
  match row[countryCol]? with
  | some cell => eqFold cell "Algeria"
  | none => false

/-- Model of `filterAlgeria` (main.go lines 59-67). -/
def filterAlgeria (data : List (List String)) (countryCol : ℕ) : List (List String) :=
  data.filter (fun row => isAlgeriaRow row countryCol)

/-- The count printed by `main` (main.go lines 215-216):
`len(algeriaCSV) - 1`, i.e. one less than the filter output length. -/
def printedFilteredCount (data : List (List String)) (countryCol : ℕ) : ℤ :=
  (filterAlgeria data countryCol).length - 1

/-- One iteration of the min/max-tracking loop of `normalize`
(main.go lines 144-151): the two conditional updates of
`minVal` and `maxVal`. -/
def minMaxStep (p : ℚ × ℚ) (val : ℚ) : ℚ × ℚ :=
  (if val < p.1 then val else p.1, if val > p.2 then val else p.2)

/-- Model of `normalize` (main.go lines 142-157).  The single loop that
updates the running minimum and maximum is a fold over the whole slice
starting from `data[0]`; reading `data[0]` of an empty slice panics,
modelled by `none`. -/
def normalize (data : List ℚ) : Option (List ℚ) :=
  match data with
  | [] => none
  | d0 :: _ =>
    let mm := data.foldl minMaxStep (d0, d0)
    some (data.map (fun val => (val - mm.1) / (mm.2 - mm.1)))

/-- Model of `stat.Mean` (gonum, unweighted): sum divided by length. -/
def mean (xs : List ℚ) : ℚ := xs.sum / (xs.length : ℚ)

/-- Model of the unweighted sample variance computed by
`stat.MeanVariance` (gonum): sum of squared deviations over `n - 1`. -/
def sampleVariance (xs : List ℚ) : ℚ :=
  ((xs.map (fun v => (v - mean xs) * (v - mean xs))).sum) / ((xs.length : ℚ) - 1)

/-- Model of gonum's unweighted covariance about given means:
sum of products of deviations over `n - 1`. -/
def covariance (xs ys : List ℚ) : ℚ :=
  ((List.zipWith (fun a b => (a - mean xs) * (b - mean ys)) xs ys).sum) / ((xs.length : ℚ) - 1)

/-- Model of `stat.LinearRegression(x, y, nil, false)` (gonum): panics
(`none`) on length mismatch, otherwise `beta = cov(x, y) / var(x)` and
`alpha = mean(y) - beta * mean(x)`.  Note gonum's first argument is the
abscissa `x` and its second the ordinate `y`. -/
def linearRegression (x y : List ℚ) : Option (ℚ × ℚ) :=
  if x.length ≠ y.length then none
  else
    let xu := mean x
    let xv := sampleVariance x
    let yu := mean y
    let cov := covariance x y
    let beta := cov / xv
    some (yu - beta * xu, beta)

/-- The `xFlat` collection loop of `runRegression` (main.go lines
166-169): takes `row[0]` of every predictor row; an empty row makes the
indexing panic (`none`). -/
def firstCols : List (List ℚ) → Option (List ℚ)
  | [] => some []
  | row :: rest =>
    match row[0]? with
    | none => none
    | some v =>
      match firstCols rest with
      | none => none
      | some vs => some (v :: vs)

/-- Model of `runRegression` (main.go lines 160-192).  Returns
`some (alpha, beta, rSquared)` on a completed run; `none` models both the
`log.Fatalf` on the shape check and any runtime panic (empty predictor
row, length mismatch inside `stat.LinearRegression`).  The code passes
`(y, xFlat)` to `stat.LinearRegression`, whose parameter order is
`(x, y)`. -/
def runRegression (y : List ℚ) (x : List (List ℚ)) : Option (ℚ × ℚ × ℚ) :=
  if x.length = 0 ∨ y.length = 0 ∨ (x.headD []).length = 0 then none
  else
    match firstCols x with
    | none => none
    | some xRaw =>
      match normalize xRaw with
      | none => none
      | some xFlat =>
        match linearRegression y xFlat with
        | none => none
        | some ab =>
          let alpha := ab.1
          let beta := ab.2
          let yMean := mean y
          let ssTotal := (y.map (fun yi => (yi - yMean) * (yi - yMean))).sum
          let ssResidual :=
            (List.zipWith (fun yi xi => (yi - (alpha + beta * xi)) * (yi - (alpha + beta * xi))) y xFlat).sum
          some (alpha, beta, 1 - ssResidual / ssTotal)

/-! ### The haversine distance -/

/-- Model of Go's `math.Atan2(y, x)` on the real numbers. -/
noncomputable def atan2 (y x : ℝ) : ℝ :=
  if 0 < x then Real.arctan (y / x)
  else if x < 0 then
    (if 0 ≤ y then Real.arctan (y / x) + Real.pi else Real.arctan (y / x) - Real.pi)
  else
    (if 0 < y then Real.pi / 2 else if y < 0 then -(Real.pi / 2) else 0)

/-- Model of `haversine` (main.go lines 70-78): great-circle distance in
kilometres on a sphere of radius 6371 km. -/
noncomputable def haversine (lat1 lon1 lat2 lon2 : ℝ) : ℝ :=
  let dLat := (lat2 - lat1) * (Real.pi / 180)
  let dLon := (lon2 - lon1) * (Real.pi / 180)
  let a := Real.sin (dLat / 2) * Real.sin (dLat / 2) +
    Real.cos (lat1 * (Real.pi / 180)) * Real.cos (lat2 * (Real.pi / 180)) *
      (Real.sin (dLon / 2) * Real.sin (dLon / 2))
  let c := 2 * atan2 (Real.sqrt a) (Real.sqrt (1 - a))
  6371 * c

/-! ### The nearest-neighbor geo join -/

/-- Cast of the lenient float parse into the reals. -/
noncomputable def pfR (s : String) : ℝ := (parseFloat s : ℝ)

/-- The distance computed by the inner loop of `joinDatasets` for one
right-table row, read through the out-of-range-tolerant cell accessor. -/
noncomputable def scanDist (lat lon : ℝ) (eLatCol eLonCol : ℕ) (row : List String) : ℝ :=
  haversine lat lon (pfR ((row[eLatCol]?).getD "")) (pfR ((row[eLonCol]?).getD ""))

/-- The inner loop of `joinDatasets` (main.go lines 99-106): scan the
right-table data rows, keeping the smallest distance seen so far
(`closestDist`, started at the 3.0 km threshold) and the row that
produced it.  Indexing a row shorter than the coordinate columns panics
(`none`). -/
noncomputable def bestMatchScan (lat lon : ℝ) (eLatCol eLonCol : ℕ) :
    List (List String) → ℝ → Option (List String) → Option (ℝ × Option (List String))
  | [], cur, best => some (cur, best)
  | row :: rest, cur, best =>
    match row[eLatCol]?, row[eLonCol]? with
    | some s1, some s2 =>
      let distance := haversine lat lon (pfR s1) (pfR s2)
      if distance < cur then bestMatchScan lat lon eLatCol eLonCol rest distance (some row)
      else bestMatchScan lat lon eLatCol eLonCol rest cur best
    | _, _ => none

/-- The outer loop of `joinDatasets` (main.go lines 94-114) over the
left-table data rows.  Per iteration it reads the left row's coordinate
cells (panic when absent), slices `excelData[1:]` (panic when the right
table is empty), scans for the best match and emits the row to `joined`
or `dangling`. -/
noncomputable def joinRows (excelData : List (List String)) (cLatCol cLonCol eLatCol eLonCol : ℕ) :
    List (List String) → Option (List (List String) × List (List String))
  | [] => some ([], [])
  | row :: rest =>
    match excelData with
    | [] => none
    | _ :: eRows =>
      match row[cLatCol]?, row[cLonCol]? with
      | some s1, some s2 =>
        match bestMatchScan (pfR s1) (pfR s2) eLatCol eLonCol eRows 3 none with
        | none => none
        | some db =>
          match joinRows excelData cLatCol cLonCol eLatCol eLonCol rest with
          | none => none
          | some jd =>
            match db.2 with
            | some m => some ((row ++ m) :: jd.1, jd.2)
            | none => some (jd.1, row :: jd.2)
      | _, _ => none

/-- Model of `joinDatasets` (main.go lines 90-117): iterates the
left-table data rows (`csvData[1:]`, a panic when the table is empty)
and partitions them into joined and dangling rows. -/
noncomputable def joinDatasets (csvData excelData : List (List String))
    (cLatCol cLonCol eLatCol eLonCol : ℕ) :
    Option (List (List String) × List (List String)) :=
  match csvData with
  | [] => none
  | _ :: rows => joinRows excelData cLatCol cLonCol eLatCol eLonCol rows

/-- Distance between a left row and a right row as computed by the join,
through the out-of-range-tolerant cell accessor. -/
noncomputable def rowDist (cLatCol cLonCol eLatCol eLonCol : ℕ) (lrow rrow : List String) : ℝ :=
  haversine (pfR ((lrow[cLatCol]?).getD "")) (pfR ((lrow[cLonCol]?).getD ""))
    (pfR ((rrow[eLatCol]?).getD "")) (pfR ((rrow[eLonCol]?).getD ""))

/-! ### Lemmas about the regression stage -/

lemma firstCols_eq_none (x : List (List ℚ)) (r : List ℚ) (hr : r ∈ x) (hre : r = []) :
    firstCols x = none := by
  induction x with
  | nil => cases hr
  | cons hd tl ih =>
    rcases List.mem_cons.mp hr with h1 | h1
    · subst hre
      rw [← h1]
      simp [firstCols]
    · cases hhd : hd[0]? with
      | none => simp [firstCols, hhd]
      | some v => simp [firstCols, hhd, ih h1]

lemma firstCols_length (x : List (List ℚ)) (hne : ∀ r ∈ x, r ≠ []) :
    ∃ vs, firstCols x = some vs ∧ vs.length = x.length := by
  induction x with
  | nil => exact ⟨[], rfl, rfl⟩
  | cons hd tl ih =>
    obtain ⟨vs, hvs, hlen⟩ := ih (fun r hr => hne r (List.mem_cons_of_mem _ hr))
    have hhd : hd ≠ [] := hne hd (List.mem_cons_self _ _)
    obtain ⟨v, hv⟩ : ∃ v, hd[0]? = some v := by
      cases hd with
      | nil => exact absurd rfl hhd
      | cons a _ => exact ⟨a, by simp⟩
    exact ⟨v :: vs, by simp [firstCols, hv, hvs], by simp [hlen]⟩

lemma foldl_minMax_spec (l : List ℚ) (p : ℚ × ℚ) :
    (l.foldl minMaxStep p).1 ≤ p.1 ∧ p.2 ≤ (l.foldl minMaxStep p).2 ∧
    ((l.foldl minMaxStep p).1 = p.1 ∨ (l.foldl minMaxStep p).1 ∈ l) ∧
    ((l.foldl minMaxStep p).2 = p.2 ∨ (l.foldl minMaxStep p).2 ∈ l) ∧
    ∀ v ∈ l, (l.foldl minMaxStep p).1 ≤ v ∧ v ≤ (l.foldl minMaxStep p).2 := by
  induction l generalizing p with
  | nil => simp
  | cons hd tl ih =>
    have step1 : (minMaxStep p hd).1 ≤ p.1 := by
      by_cases h : hd < p.1 <;> simp [minMaxStep, h] <;> linarith
    have step1hd : (minMaxStep p hd).1 ≤ hd := by
      by_cases h : hd < p.1 <;> simp [minMaxStep, h] <;> linarith
    have step1mem : (minMaxStep p hd).1 = p.1 ∨ (minMaxStep p hd).1 = hd := by
      by_cases h : hd < p.1 <;> simp [minMaxStep, h]
    have step2 : p.2 ≤ (minMaxStep p hd).2 := by
      by_cases h : hd > p.2 <;> simp [minMaxStep, h] <;> linarith
    have step2hd : hd ≤ (minMaxStep p hd).2 := by
      by_cases h : hd > p.2 <;> simp [minMaxStep, h] <;> linarith
    have step2mem : (minMaxStep p hd).2 = p.2 ∨ (minMaxStep p hd).2 = hd := by
      by_cases h : hd > p.2 <;> simp [minMaxStep, h]
    obtain ⟨ih1, ih2, ih3, ih4, ih5⟩ := ih (minMaxStep p hd)
    rw [List.foldl_cons]
    refine ⟨le_trans ih1 step1, le_trans step2 ih2, ?_, ?_, ?_⟩
    · rcases ih3 with h | h
      · rcases step1mem with h2 | h2
        · exact Or.inl (h.trans h2)
        · exact Or.inr (by rw [h, h2]; exact List.mem_cons_self _ _)
      · exact Or.inr (List.mem_cons_of_mem _ h)
    · rcases ih4 with h | h
      · rcases step2mem with h2 | h2
        · exact Or.inl (h.trans h2)
        · exact Or.inr (by rw [h, h2]; exact List.mem_cons_self _ _)
      · exact Or.inr (List.mem_cons_of_mem _ h)
    · intro v hv
      rcases List.mem_cons.mp hv with h | h
      · subst h
        exact ⟨le_trans ih1 step1hd, le_trans step2hd ih2⟩
      · exact ih5 v h

lemma normalize_spec (data : List ℚ) (hne : data ≠ []) :
    ∃ out m M, normalize data = some out ∧ out.length = data.length ∧
      m ∈ data ∧ M ∈ data ∧ (∀ v ∈ data, m ≤ v ∧ v ≤ M) ∧
      out = data.map (fun v => (v - m) / (M - m)) := by
  cases data with
  | nil => exact absurd rfl hne
  | cons d0 rest =>
    obtain ⟨h1, h2, h3, h4, h5⟩ := foldl_minMax_spec (d0 :: rest) (d0, d0)
    refine ⟨_, ((d0 :: rest).foldl minMaxStep (d0, d0)).1,
      ((d0 :: rest).foldl minMaxStep (d0, d0)).2, rfl, by simp, ?_, ?_, h5, rfl⟩
    · rcases h3 with h | h
      · rw [h]; exact List.mem_cons_self _ _
      · exact h
    · rcases h4 with h | h
      · rw [h]; exact List.mem_cons_self _ _
      · exact h

/-! ### Claim theorems for the regression stage -/

/-- C7: `runRegression` demands at least one sample and at least one
predictor component per sample; an empty target vector, an empty sample
list, or any sample with an empty predictor vector makes the run abort
(`log.Fatalf` on the shape check, or the index panic while collecting
`xFlat`) instead of returning a result. -/
theorem runRegression_empty_fatal (y : List ℚ) (x : List (List ℚ))
    (h : y = [] ∨ x = [] ∨ ∃ r ∈ x, r = []) : runRegression y x = none := by
  rcases h with h | h | ⟨r, hr, hre⟩
  · subst h; simp [runRegression]
  · subst h; simp [runRegression]
  · rcases Classical.em (x.length = 0 ∨ y.length = 0 ∨ (x.headD []).length = 0) with hc | hc
    · simp only [runRegression]
      rw [if_pos hc]
    · simp only [runRegression]
      rw [if_neg hc, firstCols_eq_none x r hr hre]

/-- Witness for C7: an empty target vector aborts the run. -/
theorem runRegression_empty_fatal_witness : runRegression [] [[1]] = none :=
  runRegression_empty_fatal [] [[1]] (Or.inl rfl)

/-- C8: on a non-empty input whose values are not all equal, min-max
normalization succeeds, preserves the length, attains exactly 0 and
exactly 1, and stays inside [0, 1]. -/
theorem normalize_range (data : List ℚ) (hne : data ≠ []) (a b : ℚ)
    (ha : a ∈ data) (hb : b ∈ data) (hab : a ≠ b) :
    ∃ out, normalize data = some out ∧ out.length = data.length ∧
      (0 : ℚ) ∈ out ∧ (1 : ℚ) ∈ out ∧ ∀ v ∈ out, 0 ≤ v ∧ v ≤ 1 := by
  obtain ⟨out, m, M, hout, hlen, hm, hM, hbound, hform⟩ := normalize_spec data hne
  have hmM : m < M := by
    rcases lt_or_eq_of_le (le_trans (hbound a ha).1 (hbound a ha).2) with h | h
    · exact h
    · exfalso
      apply hab
      have h1 := hbound a ha
      have h2 := hbound b hb
      have ha2 : a = m := le_antisymm (by rw [h]; exact h1.2) h1.1
      have hb2 : b = m := le_antisymm (by rw [h]; exact h2.2) h2.1
      rw [ha2, hb2]
  have hpos : (0 : ℚ) < M - m := by linarith
  refine ⟨out, hout, hlen, ?_, ?_, ?_⟩
  · rw [hform]
    have : ((m - m) / (M - m) : ℚ) = 0 := by rw [sub_self, zero_div]
    rw [← this]
    exact List.mem_map_of_mem _ hm
  · rw [hform]
    have : ((M - m) / (M - m) : ℚ) = 1 := div_self (ne_of_gt hpos)
    rw [← this]
    exact List.mem_map_of_mem _ hM
  · intro v hv
    rw [hform] at hv
    obtain ⟨w, hw, hwv⟩ := List.mem_map.mp hv
    subst hwv
    constructor
    · exact div_nonneg (by linarith [(hbound w hw).1]) (le_of_lt hpos)
    · rw [div_le_one hpos]
      linarith [(hbound w hw).2]

/-- Witness for C8: normalizing `[0, 2]` yields `[0, 1]`. -/
theorem normalize_range_witness :
    ∃ out, normalize [0, 2] = some out ∧ out.length = ([0, 2] : List ℚ).length ∧
      (0 : ℚ) ∈ out ∧ (1 : ℚ) ∈ out ∧ ∀ v ∈ out, 0 ≤ v ∧ v ≤ 1 :=
  normalize_range [0, 2] (by simp) 0 2 (by simp) (by simp) (by norm_num)

/-- C1 (failing run): on the noiseless synthetic data `y = 2 + 3 * xNorm`
over raw predictor values 0..9, the code returns intercept -2/3, slope
1/3 and R² = -15365/891 ≈ -17.24 instead of the claimed 2, 3 and 1: the
call site passes `(y, xFlat)` to gonum's `stat.LinearRegression`, whose
parameter order is `(x, y)`, so the code fits the predictor against the
target while its own printed model equation promises the opposite. -/
theorem runRegression_on_noiseless_synthetic :
    runRegression [2, 7/3, 8/3, 3, 10/3, 11/3, 4, 13/3, 14/3, 5]
      [[0], [1], [2], [3], [4], [5], [6], [7], [8], [9]] =
      some (-(2/3), 1/3, -(15365/891)) := by
  norm_num [runRegression, firstCols, Flare.normalize, minMaxStep, linearRegression,
    mean, sampleVariance, covariance]

/-- C4 (counterexample): with an all-equal predictor column (max = min)
the run does not abort; it silently returns a result (in Go float
semantics the division by zero floods the output with NaN, here the
exact-arithmetic degenerate values). -/
theorem runRegression_constant_predictor_returns :
    runRegression [1, 2] [[5], [5]] = some (0, 0, -9) := by
  norm_num [runRegression, firstCols, Flare.normalize, minMaxStep, linearRegression,
    mean, sampleVariance, covariance]

/-- C4 (amended): the normalize-and-fit stage has no degeneracy check at
all.  Whenever the input passes the only guard in the code (non-empty
target, non-empty sample list, non-empty predictor rows, matching
lengths), the run returns a fit result, including when all predictor
values are equal or the target is constant. -/
theorem runRegression_no_degeneracy_check (y : List ℚ) (x : List (List ℚ))
    (hy : y ≠ []) (hx : x ≠ []) (hrows : ∀ r ∈ x, r ≠ [])
    (hlen : y.length = x.length) : (runRegression y x).isSome = true := by
  obtain ⟨vs, hvs, hvslen⟩ := firstCols_length x hrows
  have hvsne : vs ≠ [] := by
    intro hcontra
    rw [hcontra] at hvslen
    exact hx (List.length_eq_zero.mp hvslen.symm)
  obtain ⟨out, m, M, hout, houtlen, _, _, _, _⟩ := normalize_spec vs hvsne
  have hcond : ¬(x.length = 0 ∨ y.length = 0 ∨ (x.headD []).length = 0) := by
    push_neg
    refine ⟨fun h => hx (List.length_eq_zero.mp h), fun h => hy (List.length_eq_zero.mp h), ?_⟩
    cases x with
    | nil => exact absurd rfl hx
    | cons hd tl =>
      intro h
      exact hrows hd (List.mem_cons_self _ _) (List.length_eq_zero.mp h)
  have hlr : y.length = out.length := by rw [houtlen, hvslen, hlen]
  simp only [runRegression]
  rw [if_neg hcond]
  simp only [hvs, hout, linearRegression]
  rw [if_neg (by rw [hlr]; exact fun h => h rfl)]
  rfl

/-- Witness for C4 (amended): the constant-predictor input from the
counterexample passes the shape guard and produces a result. -/
theorem runRegression_no_degeneracy_check_witness :
    (runRegression [1, 2] [[5], [5]]).isSome = true :=
  runRegression_no_degeneracy_check [1, 2] [[5], [5]] (by simp) (by simp)
    (by intro r hr; rcases List.mem_cons.mp hr with h | h <;> simp_all) (by simp)


lemma haversine_self (lat lon : ℝ) : haversine lat lon lat lon = 0 := by
  norm_num [haversine, atan2]

lemma haversine_equator : haversine 0 0 0 1 = 6371 * (Real.pi / 180) := by
  have hpi := Real.pi_pos
  have hs : (0:ℝ) ≤ Real.sin (Real.pi / 180 / 2) :=
    Real.sin_nonneg_of_nonneg_of_le_pi (by linarith) (by linarith)
  have hc : (0:ℝ) < Real.cos (Real.pi / 180 / 2) :=
    Real.cos_pos_of_mem_Ioo ⟨by linarith, by linarith⟩
  have hident : 1 - Real.sin (Real.pi / 180 / 2) * Real.sin (Real.pi / 180 / 2) =
      Real.cos (Real.pi / 180 / 2) * Real.cos (Real.pi / 180 / 2) := by
    nlinarith [Real.sin_sq_add_cos_sq (Real.pi / 180 / 2)]
  have hsq1 : Real.sqrt (Real.sin (Real.pi / 180 / 2) * Real.sin (Real.pi / 180 / 2)) =
      Real.sin (Real.pi / 180 / 2) := Real.sqrt_mul_self hs
  have hsq2 : Real.sqrt (Real.cos (Real.pi / 180 / 2) * Real.cos (Real.pi / 180 / 2)) =
      Real.cos (Real.pi / 180 / 2) := Real.sqrt_mul_self (le_of_lt hc)
  have harctan : Real.arctan (Real.sin (Real.pi / 180 / 2) / Real.cos (Real.pi / 180 / 2)) =
      Real.pi / 180 / 2 := by
    rw [← Real.tan_eq_sin_div_cos]
    exact Real.arctan_tan (by linarith) (by linarith)
  unfold haversine
  simp only [sub_zero, zero_mul, mul_zero, zero_div, Real.sin_zero, Real.cos_zero,
    one_mul, mul_one, zero_add, add_zero]
  rw [hident, hsq1, hsq2]
  unfold atan2
  rw [if_pos hc, harctan]
  ring

/-- C9: the haversine distance (mean Earth radius 6371 km) from any
point to itself is 0, and the distance from (0,0) to (0,1) is within
0.5 km of 111.19 km. -/
theorem haversine_sanity :
    (∀ lat lon : ℝ, haversine lat lon lat lon = 0) ∧
    |haversine 0 0 0 1 - 111.19| < 0.5 := by
  refine ⟨haversine_self, ?_⟩
  rw [haversine_equator, abs_lt]
  have h1 := Real.pi_gt_d6
  have h2 := Real.pi_lt_d2
  norm_num at h1 h2 ⊢
  constructor <;> nlinarith

lemma bestMatchScan_inv (lat lon : ℝ) (ec ed : ℕ) (rows : List (List String)) :
    ∀ (cur : ℝ) (best : Option (List String)) (d : ℝ) (b : Option (List String)),
      bestMatchScan lat lon ec ed rows cur best = some (d, b) →
      d ≤ cur ∧
      (∀ r ∈ rows, ¬ scanDist lat lon ec ed r < d) ∧
      ((b = best ∧ d = cur) ∨
        ∃ (i : ℕ) (r : List String), rows[i]? = some r ∧ b = some r ∧ d = scanDist lat lon ec ed r ∧ d < cur ∧
          ∀ (j : ℕ) (r2 : List String), j < i → rows[j]? = some r2 → d < scanDist lat lon ec ed r2) := by
  induction rows with
  | nil =>
    intro cur best d b h
    rw [bestMatchScan] at h
    simp only [Option.some.injEq, Prod.mk.injEq] at h
    obtain ⟨h1, h2⟩ := h
    subst h1
    subst h2
    exact ⟨le_refl _, by simp, Or.inl ⟨rfl, rfl⟩⟩
  | cons hd tl ih =>
    intro cur best d b h
    rcases h1 : hd[ec]? with _ | s1
    · rw [bestMatchScan, h1] at h
      simp at h
    rcases h2 : hd[ed]? with _ | s2
    · rw [bestMatchScan, h1, h2] at h
      simp at h
    rw [bestMatchScan, h1, h2] at h
    simp only at h
    have hsd : scanDist lat lon ec ed hd = haversine lat lon (pfR s1) (pfR s2) := by
      simp [scanDist, h1, h2]
    by_cases hlt : haversine lat lon (pfR s1) (pfR s2) < cur
    · rw [if_pos hlt] at h
      obtain ⟨ihd, ihall, ihcase⟩ := ih _ _ _ _ h
      refine ⟨le_of_lt (lt_of_le_of_lt ihd hlt), ?_, ?_⟩
      · intro r hr
        rcases List.mem_cons.mp hr with hh | hh
        · subst hh
          rw [hsd]
          exact not_lt.mpr ihd
        · exact ihall r hh
      · rcases ihcase with ⟨hb, hdc⟩ | ⟨i, r, hir, hbr, hdr, hdcur, hearlier⟩
        · refine Or.inr ⟨0, hd, by simp, hb, by rw [hdc, hsd], lt_of_le_of_lt (le_of_eq hdc) hlt, ?_⟩
          intro j r2 hj
          omega
        · refine Or.inr ⟨i + 1, r, by simpa using hir, hbr, hdr, lt_trans hdcur hlt, ?_⟩
          intro j r2 hj hjr
          cases j with
          | zero =>
            simp only [List.getElem?_cons_zero, Option.some.injEq] at hjr
            subst hjr
            rw [hsd]
            exact hdcur
          | succ j2 =>
            simp only [List.getElem?_cons_succ] at hjr
            exact hearlier j2 r2 (by omega) hjr
    · rw [if_neg hlt] at h
      obtain ⟨ihd, ihall, ihcase⟩ := ih _ _ _ _ h
      refine ⟨ihd, ?_, ?_⟩
      · intro r hr
        rcases List.mem_cons.mp hr with hh | hh
        · subst hh
          rw [hsd]
          exact fun hcon => hlt (lt_of_lt_of_le hcon ihd)
        · exact ihall r hh
      · rcases ihcase with ⟨hb, hdc⟩ | ⟨i, r, hir, hbr, hdr, hdcur, hearlier⟩
        · exact Or.inl ⟨hb, hdc⟩
        · refine Or.inr ⟨i + 1, r, by simpa using hir, hbr, hdr, hdcur, ?_⟩
          intro j r2 hj hjr
          cases j with
          | zero =>
            simp only [List.getElem?_cons_zero, Option.some.injEq] at hjr
            subst hjr
            rw [hsd]
            exact lt_of_lt_of_le hdcur (not_lt.mp hlt)
          | succ j2 =>
            simp only [List.getElem?_cons_succ] at hjr
            exact hearlier j2 r2 (by omega) hjr

lemma joinRows_inv (ehd : List String) (etl : List (List String)) (a b c d : ℕ)
    (lrows : List (List String)) (j dg : List (List String))
    (h : joinRows (ehd :: etl) a b c d lrows = some (j, dg)) :
    ∃ pairs : List (List String × Option (List String)),
      pairs.map Prod.fst = lrows ∧
      j = pairs.filterMap (fun p => Option.map (fun m => p.1 ++ m) p.2) ∧
      dg = pairs.filterMap (fun p => match p.2 with | none => some p.1 | some _ => none) ∧
      ∀ p ∈ pairs, ∀ m, p.2 = some m →
        rowDist a b c d p.1 m < 3 ∧
        (∀ o ∈ etl, ¬ rowDist a b c d p.1 o < rowDist a b c d p.1 m) ∧
        (∃ (i : ℕ), etl[i]? = some m ∧
          ∀ (k : ℕ) (o : List String), k < i → etl[k]? = some o →
            rowDist a b c d p.1 m < rowDist a b c d p.1 o) := by
  induction lrows generalizing j dg with
  | nil =>
    rw [joinRows] at h
    simp only [Option.some.injEq, Prod.mk.injEq] at h
    exact ⟨[], by simp, by simp [h.1.symm], by simp [h.2.symm], by simp⟩
  | cons row rest ih =>
    rcases h1 : row[a]? with _ | s1
    · rw [joinRows, h1] at h
      simp at h
    rcases h2 : row[b]? with _ | s2
    · rw [joinRows, h1, h2] at h
      simp at h
    rw [joinRows, h1, h2] at h
    simp only at h
    rcases hscan : bestMatchScan (pfR s1) (pfR s2) c d etl 3 none with _ | db
    · rw [hscan] at h
      simp at h
    rw [hscan] at h
    simp only at h
    rcases hrec : joinRows (ehd :: etl) a b c d rest with _ | jd
    · rw [hrec] at h
      simp at h
    rw [hrec] at h
    simp only at h
    obtain ⟨pairs, hfst, hj, hdg, hprops⟩ := ih jd.1 jd.2 (by rw [hrec])
    have hldist : ∀ o : List String,
        rowDist a b c d row o = scanDist (pfR s1) (pfR s2) c d o := by
      intro o
      simp [rowDist, scanDist, h1, h2]
    rcases hbest : db.2 with _ | m
    · rw [hbest] at h
      simp only [Option.some.injEq, Prod.mk.injEq] at h
      refine ⟨(row, none) :: pairs, by simp [hfst], ?_, ?_, ?_⟩
      · rw [← h.1, hj]
        simp [List.filterMap_cons]
      · rw [← h.2, hdg]
        simp [List.filterMap_cons]
      · intro p hp m2 hm2
        rcases List.mem_cons.mp hp with hh | hh
        · subst hh
          simp at hm2
        · exact hprops p hh m2 hm2
    · rw [hbest] at h
      simp only [Option.some.injEq, Prod.mk.injEq] at h
      obtain ⟨sd, sall, scase⟩ := bestMatchScan_inv (pfR s1) (pfR s2) c d etl 3 none db.1 db.2
        (by rw [hscan])
      refine ⟨(row, some m) :: pairs, by simp [hfst], ?_, ?_, ?_⟩
      · rw [← h.1, hj]
        simp [List.filterMap_cons]
      · rw [← h.2, hdg]
        simp [List.filterMap_cons]
      · intro p hp m2 hm2
        rcases List.mem_cons.mp hp with hh | hh
        · subst hh
          simp only [Option.some.injEq] at hm2
          subst hm2
          rcases scase with ⟨hbn, _⟩ | ⟨i, r, hir, hbr, hdr, hdcur, hearlier⟩
          · rw [hbest] at hbn
            simp at hbn
          · rw [hbest] at hbr
            simp only [Option.some.injEq] at hbr
            subst hbr
            refine ⟨?_, ?_, ⟨i, hir, ?_⟩⟩
            · rw [hldist, ← hdr]
              exact hdcur
            · intro o ho
              rw [hldist, hldist, ← hdr]
              exact sall o ho
            · intro k o hk hko
              rw [hldist, hldist, ← hdr]
              exact hearlier k o hk hko
        · exact hprops p hh m2 hm2

lemma filterMap_partition_length (pairs : List (List String × Option (List String))) :
    (pairs.filterMap (fun p => Option.map (fun m => p.1 ++ m) p.2)).length +
      (pairs.filterMap (fun p => match p.2 with | none => some p.1 | some _ => none)).length =
      pairs.length := by
  induction pairs with
  | nil => simp
  | cons hd tl ih =>
    rcases hop : hd.2 with _ | m
    · simp only [List.filterMap_cons, hop, List.length_cons, Option.map_none']
      omega
    · simp only [List.filterMap_cons, hop, List.length_cons, Option.map_some']
      omega

/-- C2: every row of `matched` is a left data row concatenated with a
right data row whose distance is strictly below the 3.0 km threshold,
and no right data row lies strictly closer to that left row. -/
theorem joinDatasets_nearest (csvData excelData : List (List String)) (a b c d : ℕ)
    (j dg : List (List String))
    (h : joinDatasets csvData excelData a b c d = some (j, dg))
    (row : List String) (hrow : row ∈ j) :
    ∃ lrow rrow, lrow ∈ csvData.tail ∧ rrow ∈ excelData.tail ∧ row = lrow ++ rrow ∧
      rowDist a b c d lrow rrow < 3 ∧
      ∀ o ∈ excelData.tail, ¬ rowDist a b c d lrow o < rowDist a b c d lrow rrow := by
  rcases csvData with _ | ⟨hd, rows⟩
  · simp [joinDatasets] at h
  rcases excelData with _ | ⟨ehd, etl⟩
  · rcases rows with _ | ⟨r0, rrest⟩
    · simp only [joinDatasets, joinRows, Option.some.injEq, Prod.mk.injEq] at h
      obtain ⟨hj0, hdg0⟩ := h
      subst hj0
      cases hrow
    · simp [joinDatasets, joinRows] at h
  have h2 : joinRows (ehd :: etl) a b c d rows = some (j, dg) := by
    simpa [joinDatasets] using h
  obtain ⟨pairs, hfst, hj, hdg, hprops⟩ := joinRows_inv ehd etl a b c d rows j dg h2
  rw [hj] at hrow
  obtain ⟨p, hp, hfp⟩ := List.mem_filterMap.mp hrow
  obtain ⟨m, hm, hcat⟩ := Option.map_eq_some'.mp hfp
  obtain ⟨hdist, hnone, ⟨i, hi, _⟩⟩ := hprops p hp m hm
  refine ⟨p.1, m, ?_, ?_, hcat.symm, hdist, hnone⟩
  · rw [List.tail_cons, ← hfst]
    exact List.mem_map_of_mem Prod.fst hp
  · exact List.getElem?_mem hi

/-- C6: the right row joined to a left row is the first-occurring
minimizer: every right row at a strictly earlier index is at a strictly
greater distance, so at any exact tie the earlier-indexed right row
wins. -/
theorem joinDatasets_tiebreak (csvData excelData : List (List String)) (a b c d : ℕ)
    (j dg : List (List String))
    (h : joinDatasets csvData excelData a b c d = some (j, dg))
    (row : List String) (hrow : row ∈ j) :
    ∃ (lrow m : List String) (i : ℕ), lrow ∈ csvData.tail ∧
      excelData.tail[i]? = some m ∧ row = lrow ++ m ∧
      rowDist a b c d lrow m < 3 ∧
      (∀ (k : ℕ) (o : List String), k < i → excelData.tail[k]? = some o →
        rowDist a b c d lrow m < rowDist a b c d lrow o) ∧
      (∀ o ∈ excelData.tail, ¬ rowDist a b c d lrow o < rowDist a b c d lrow m) := by
  rcases csvData with _ | ⟨hd, rows⟩
  · simp [joinDatasets] at h
  rcases excelData with _ | ⟨ehd, etl⟩
  · rcases rows with _ | ⟨r0, rrest⟩
    · simp only [joinDatasets, joinRows, Option.some.injEq, Prod.mk.injEq] at h
      obtain ⟨hj0, hdg0⟩ := h
      subst hj0
      cases hrow
    · simp [joinDatasets, joinRows] at h
  have h2 : joinRows (ehd :: etl) a b c d rows = some (j, dg) := by
    simpa [joinDatasets] using h
  obtain ⟨pairs, hfst, hj, hdg, hprops⟩ := joinRows_inv ehd etl a b c d rows j dg h2
  rw [hj] at hrow
  obtain ⟨p, hp, hfp⟩ := List.mem_filterMap.mp hrow
  obtain ⟨m, hm, hcat⟩ := Option.map_eq_some'.mp hfp
  obtain ⟨hdist, hnone, ⟨i, hi, hearlier⟩⟩ := hprops p hp m hm
  refine ⟨p.1, m, i, ?_, hi, hcat.symm, hdist, hearlier, hnone⟩
  rw [List.tail_cons, ← hfst]
  exact List.mem_map_of_mem Prod.fst hp

/-- C5: a successful join partitions the left data rows: each left data
row contributes exactly one output row — its concatenation with a right
data row in `matched`, or itself unchanged in `dangling` — and the
matched widths add up. -/
theorem joinDatasets_partition (csvData excelData : List (List String)) (a b c d : ℕ)
    (j dg : List (List String))
    (h : joinDatasets csvData excelData a b c d = some (j, dg)) :
    ∃ pairs : List (List String × Option (List String)),
      pairs.map Prod.fst = csvData.tail ∧
      j = pairs.filterMap (fun p => Option.map (fun m => p.1 ++ m) p.2) ∧
      dg = pairs.filterMap (fun p => match p.2 with | none => some p.1 | some _ => none) ∧
      j.length + dg.length = csvData.tail.length ∧
      (∀ r ∈ dg, r ∈ csvData.tail) ∧
      (∀ r ∈ j, ∃ lrow rrow, lrow ∈ csvData.tail ∧ rrow ∈ excelData.tail ∧
        r = lrow ++ rrow ∧ r.length = lrow.length + rrow.length) := by
  rcases csvData with _ | ⟨hd, rows⟩
  · simp [joinDatasets] at h
  rcases excelData with _ | ⟨ehd, etl⟩
  · rcases rows with _ | ⟨r0, rrest⟩
    · simp only [joinDatasets, joinRows, Option.some.injEq, Prod.mk.injEq] at h
      obtain ⟨hj0, hdg0⟩ := h
      subst hj0
      subst hdg0
      exact ⟨[], by simp, by simp, by simp, by simp, by simp, by simp⟩
    · simp [joinDatasets, joinRows] at h
  have h2 : joinRows (ehd :: etl) a b c d rows = some (j, dg) := by
    simpa [joinDatasets] using h
  obtain ⟨pairs, hfst, hj, hdg, hprops⟩ := joinRows_inv ehd etl a b c d rows j dg h2
  have hlen : j.length + dg.length = rows.length := by
    rw [hj, hdg, ← hfst, List.length_map]
    exact filterMap_partition_length pairs
  refine ⟨pairs, by simpa using hfst, hj, hdg, by simpa using hlen, ?_, ?_⟩
  · intro r hr
    rw [hdg] at hr
    obtain ⟨p, hp, hfp⟩ := List.mem_filterMap.mp hr
    rcases hop : p.2 with _ | m
    · rw [hop] at hfp
      simp only [Option.some.injEq] at hfp
      subst hfp
      rw [List.tail_cons, ← hfst]
      exact List.mem_map_of_mem Prod.fst hp
    · rw [hop] at hfp
      cases hfp
  · intro r hr
    rw [hj] at hr
    obtain ⟨p, hp, hfp⟩ := List.mem_filterMap.mp hr
    obtain ⟨m, hm, hcat⟩ := Option.map_eq_some'.mp hfp
    obtain ⟨_, _, ⟨i, hi, _⟩⟩ := hprops p hp m hm
    refine ⟨p.1, m, ?_, List.getElem?_mem hi, hcat.symm, by rw [← hcat]; simp⟩
    rw [List.tail_cons, ← hfst]
    exact List.mem_map_of_mem Prod.fst hp

lemma joinRows_short_row (excelData : List (List String)) (a b c d : ℕ)
    (rows : List (List String)) (lrow : List String) (hl : lrow ∈ rows)
    (hshort : lrow[a]? = none ∨ lrow[b]? = none) :
    joinRows excelData a b c d rows = none := by
  induction rows with
  | nil => cases hl
  | cons hd tl ih =>
    rcases excelData with _ | ⟨ehd, etl⟩
    · simp [joinRows]
    rcases List.mem_cons.mp hl with hh | hh
    · subst hh
      rcases ha : lrow[a]? with _ | s1
      · simp [joinRows, ha]
      rcases hb : lrow[b]? with _ | s2
      · simp [joinRows, ha, hb]
      rcases hshort with hs | hs
      · rw [ha] at hs
        cases hs
      · rw [hb] at hs
        cases hs
    · have htl := ih hh
      rcases ha : hd[a]? with _ | s1
      · simp [joinRows, ha]
      rcases hb : hd[b]? with _ | s2
      · simp [joinRows, ha, hb]
      rcases hscan : bestMatchScan (pfR s1) (pfR s2) c d etl 3 none with _ | db
      · simp [joinRows, ha, hb, hscan]
      · simp [joinRows, ha, hb, hscan, htl]

/-- C3 (amended): geo-matching does not tolerate ragged rows: a left
data row lacking the configured latitude or longitude cell makes the
join abort with an index panic instead of treating the cell as
absent. -/
theorem joinDatasets_short_left_row_fatal (csvData excelData : List (List String))
    (a b c d : ℕ) (lrow : List String) (hl : lrow ∈ csvData.tail)
    (hshort : lrow[a]? = none ∨ lrow[b]? = none) :
    joinDatasets csvData excelData a b c d = none := by
  rcases csvData with _ | ⟨hd, rows⟩
  · simp at hl
  · simp only [List.tail_cons] at hl
    simpa [joinDatasets] using joinRows_short_row excelData a b c d rows lrow hl hshort

/-- C3 (counterexample): a left table whose data row is shorter than the
configured coordinate columns makes the join fail instead of completing
with the row treated as absent. -/
theorem joinDatasets_short_row_not_tolerated :
    joinDatasets [["h"], []] [["e"], ["0", "0"]] 0 1 0 1 = none := by
  simp [joinDatasets, joinRows]

/-- Witness for C2: a left row at (0,0) is matched with the right row at
(0,0): distance 0 < 3 km and no right row strictly closer. -/
theorem joinDatasets_nearest_witness :
    ∃ lrow rrow, lrow ∈ ([["h"], ["0", "0"]] : List (List String)).tail ∧
      rrow ∈ ([["e"], ["0", "0"]] : List (List String)).tail ∧
      (["0", "0", "0", "0"] : List String) = lrow ++ rrow ∧
      rowDist 0 1 0 1 lrow rrow < 3 ∧
      ∀ o ∈ ([["e"], ["0", "0"]] : List (List String)).tail,
        ¬ rowDist 0 1 0 1 lrow o < rowDist 0 1 0 1 lrow rrow :=
  joinDatasets_nearest [["h"], ["0", "0"]] [["e"], ["0", "0"]] 0 1 0 1
    [["0", "0", "0", "0"]] []
    (by norm_num [joinDatasets, joinRows, bestMatchScan, haversine_self])
    ["0", "0", "0", "0"] (by simp)

/-- Witness for C6: in the concrete matched join the chosen right row
sits at an index all of whose predecessors are strictly farther away. -/
theorem joinDatasets_tiebreak_witness :
    ∃ (lrow m : List String) (i : ℕ), lrow ∈ ([["h"], ["0", "0"]] : List (List String)).tail ∧
      ([["e"], ["0", "0"]] : List (List String)).tail[i]? = some m ∧
      (["0", "0", "0", "0"] : List String) = lrow ++ m ∧
      rowDist 0 1 0 1 lrow m < 3 ∧
      (∀ (k : ℕ) (o : List String), k < i →
        ([["e"], ["0", "0"]] : List (List String)).tail[k]? = some o →
        rowDist 0 1 0 1 lrow m < rowDist 0 1 0 1 lrow o) ∧
      (∀ o ∈ ([["e"], ["0", "0"]] : List (List String)).tail,
        ¬ rowDist 0 1 0 1 lrow o < rowDist 0 1 0 1 lrow m) :=
  joinDatasets_tiebreak [["h"], ["0", "0"]] [["e"], ["0", "0"]] 0 1 0 1
    [["0", "0", "0", "0"]] []
    (by norm_num [joinDatasets, joinRows, bestMatchScan, haversine_self])
    ["0", "0", "0", "0"] (by simp)

/-- Witness for C5: with no right data rows the single left data row is
emitted unchanged to `dangling` and the partition accounting holds. -/
theorem joinDatasets_partition_witness :
    ∃ pairs : List (List String × Option (List String)),
      pairs.map Prod.fst = ([["h"], ["5", "6"]] : List (List String)).tail ∧
      ([] : List (List String)) =
        pairs.filterMap (fun p => Option.map (fun m => p.1 ++ m) p.2) ∧
      ([["5", "6"]] : List (List String)) =
        pairs.filterMap (fun p => match p.2 with | none => some p.1 | some _ => none) ∧
      ([] : List (List String)).length + ([["5", "6"]] : List (List String)).length =
        ([["h"], ["5", "6"]] : List (List String)).tail.length ∧
      (∀ r ∈ ([["5", "6"]] : List (List String)),
        r ∈ ([["h"], ["5", "6"]] : List (List String)).tail) ∧
      (∀ r ∈ ([] : List (List String)), ∃ lrow rrow,
        lrow ∈ ([["h"], ["5", "6"]] : List (List String)).tail ∧
        rrow ∈ ([["e"]] : List (List String)).tail ∧
        r = lrow ++ rrow ∧ r.length = lrow.length + rrow.length) :=
  joinDatasets_partition [["h"], ["5", "6"]] [["e"]] 0 1 0 1 [] [["5", "6"]]
    (by simp [joinDatasets, joinRows, bestMatchScan])

/-- Witness for C3 (amended): a left data row with only one cell, under
latitude column 0 and longitude column 1, aborts the join. -/
theorem joinDatasets_short_left_row_fatal_witness :
    joinDatasets [["h"], ["5"]] [["e"], ["0", "0"]] 0 1 0 1 = none :=
  joinDatasets_short_left_row_fatal [["h"], ["5"]] [["e"], ["0", "0"]] 0 1 0 1 ["5"]
    (by simp) (Or.inr (by simp))


/-! ### The composed pipeline: filter then join -/

/-- C10: the country filter keeps exactly the case-insensitively
matching rows, so a header row whose country cell does not match is
dropped; the join then treats the first filtered row — which is the
first country-matching data row — as the header and skips it, so that
row reaches neither `matched` nor `dangling`; and the printed count is
the filter output length minus one. -/
theorem pipeline_header_skew (csvData excelData : List (List String))
    (cc a b c d : ℕ) (hdr : List String) (rows : List (List String))
    (r : List String) (rest : List (List String)) (j dg : List (List String))
    (hcsv : csvData = hdr :: rows)
    (hhdr : isAlgeriaRow hdr cc = false)
    (hfil : filterAlgeria csvData cc = r :: rest)
    (hnodup : r ∉ rest)
    (hjoin : joinDatasets (filterAlgeria csvData cc) excelData a b c d = some (j, dg)) :
    (isAlgeriaRow r cc = true ∧
      ∃ pre post, rows = pre ++ r :: post ∧ ∀ q ∈ pre, isAlgeriaRow q cc = false) ∧
    r ∉ dg ∧
    (∀ row ∈ j, ∃ lrow rrow, lrow ∈ rest ∧ lrow ≠ r ∧ rrow ∈ excelData.tail ∧
      row = lrow ++ rrow) ∧
    printedFilteredCount csvData cc = (filterAlgeria csvData cc).length - 1 := by
  subst hcsv
  have hfil2 : filterAlgeria rows cc = r :: rest := by
    rw [filterAlgeria, List.filter_cons, if_neg (by simp [hhdr])] at hfil
    exact hfil
  obtain ⟨l1, l2, hsplit, hpre, hpa, _⟩ := List.filter_eq_cons_iff.mp hfil2
  rw [hfil] at hjoin
  have hfirst : isAlgeriaRow r cc = true ∧
      ∃ pre post, rows = pre ++ r :: post ∧ ∀ q ∈ pre, isAlgeriaRow q cc = false := by
    refine ⟨hpa, l1, l2, hsplit, ?_⟩
    intro q hq
    exact Bool.not_eq_true _ ▸ (Bool.eq_false_iff.mpr (hpre q hq))
  rcases excelData with _ | ⟨ehd, etl⟩
  · rcases rest with _ | ⟨r0, rrest⟩
    · simp only [joinDatasets, joinRows, Option.some.injEq, Prod.mk.injEq] at hjoin
      obtain ⟨hj0, hdg0⟩ := hjoin
      subst hj0
      subst hdg0
      exact ⟨hfirst, by simp, by simp, rfl⟩
    · simp [joinDatasets, joinRows] at hjoin
  have h2 : joinRows (ehd :: etl) a b c d rest = some (j, dg) := by
    simpa [joinDatasets] using hjoin
  obtain ⟨pairs, hfst, hj, hdg, hprops⟩ := joinRows_inv ehd etl a b c d rest j dg h2
  refine ⟨hfirst, ?_, ?_, rfl⟩
  · intro hr
    rw [hdg] at hr
    obtain ⟨p, hp, hfp⟩ := List.mem_filterMap.mp hr
    rcases hop : p.2 with _ | m
    · rw [hop] at hfp
      simp only [Option.some.injEq] at hfp
      apply hnodup
      rw [← hfp, ← hfst]
      exact List.mem_map_of_mem Prod.fst hp
    · rw [hop] at hfp
      cases hfp
  · intro row hrow
    rw [hj] at hrow
    obtain ⟨p, hp, hfp⟩ := List.mem_filterMap.mp hrow
    obtain ⟨m, hm, hcat⟩ := Option.map_eq_some'.mp hfp
    obtain ⟨_, _, ⟨i, hi, _⟩⟩ := hprops p hp m hm
    have hlmem : p.1 ∈ rest := by
      rw [← hfst]
      exact List.mem_map_of_mem Prod.fst hp
    exact ⟨p.1, m, hlmem, fun he => hnodup (he ▸ hlmem), List.getElem?_mem hi, hcat.symm⟩

/-- Witness for C10: the header row "Country" is dropped by the filter,
the first Algeria row is then consumed as the join's header, and the
remaining Algeria row dangles. -/
theorem pipeline_header_skew_witness :
    (isAlgeriaRow ["Algeria", "0", "0"] 0 = true ∧
      ∃ pre post, [["Algeria", "0", "0"], ["ALGERIA", "1", "1"]] =
        pre ++ ["Algeria", "0", "0"] :: post ∧ ∀ q ∈ pre, isAlgeriaRow q 0 = false) ∧
    (["Algeria", "0", "0"] : List String) ∉ [["ALGERIA", "1", "1"]] ∧
    (∀ row ∈ ([] : List (List String)), ∃ lrow rrow,
      lrow ∈ [["ALGERIA", "1", "1"]] ∧ lrow ≠ ["Algeria", "0", "0"] ∧
      rrow ∈ ([["e"]] : List (List String)).tail ∧ row = lrow ++ rrow) ∧
    printedFilteredCount [["Country", "9", "9"], ["Algeria", "0", "0"],
      ["ALGERIA", "1", "1"]] 0 =
      (filterAlgeria [["Country", "9", "9"], ["Algeria", "0", "0"],
        ["ALGERIA", "1", "1"]] 0).length - 1 :=
  pipeline_header_skew
    [["Country", "9", "9"], ["Algeria", "0", "0"], ["ALGERIA", "1", "1"]] [["e"]]
    0 1 2 1 2 ["Country", "9", "9"] [["Algeria", "0", "0"], ["ALGERIA", "1", "1"]]
    ["Algeria", "0", "0"] [["ALGERIA", "1", "1"]] [] [["ALGERIA", "1", "1"]]
    rfl (by decide) (by decide) (by decide)
    (by rw [(by decide : filterAlgeria [["Country", "9", "9"], ["Algeria", "0", "0"],
        ["ALGERIA", "1", "1"]] 0 = [["Algeria", "0", "0"], ["ALGERIA", "1", "1"]])]
        simp [joinDatasets, joinRows, bestMatchScan])

end Flare
